import Mathlib

/-!
A Lean model of the threepy5 note-taking application core, translated from
the Python sources: the data-model layer (threepy5/threepy5.py: Card,
Content, Header, Image with Dump and Load) and the board interaction layer
(src/boardbase.py: selection, drag-select, card placement, arrangement,
navigation, copy and delete), together with theorems settling the frozen
claims about them.

Conventions of the shallow embedding:
* Python numbers are modelled as `Int`.  The model layer accepts floats in
  `rect`, but no claim performs arithmetic on them that could round, so an
  exact integer carrier is adequate; the board layer uses `wx.Rect`, which
  is integer valued in wx.
* `wx.Rect` coordinate conventions are kept: a rect `(x, y, w, h)` has
  `right = x + w - 1` and `bottom = y + h - 1` (inclusive coordinates, as
  in wxWidgets GetRight and GetBottom), and `Intersects` holds exactly
  when the clipped width and height are both positive.
* Python object mutation becomes explicit state passing on `BoardState`.
* The widget classes of src/src/card.py are not present in the sources;
  where their data is needed it is modelled from the spec (each such
  definition carries a doc comment saying so).
-/

namespace Threepy5

/-- A 2D point with integer coordinates, standing for wx.Point. -/
structure Point where
  x : Int
  y : Int
deriving DecidableEq, Repr

/-- Componentwise point addition (wx.Point addition). -/
def Point.add (a b : Point) : Point := ⟨a.x + b.x, a.y + b.y⟩

/-- Componentwise point subtraction (wx.Point subtraction). -/
def Point.sub (a b : Point) : Point := ⟨a.x - b.x, a.y - b.y⟩

instance : Add Point := ⟨Point.add⟩

instance : Sub Point := ⟨Point.sub⟩

/-- A rectangle `(x, y, w, h)`, standing for wx.Rect (and for the model
layer rect list `[x, y, w, h]`). -/
structure Rect where
  x : Int
  y : Int
  w : Int
  h : Int
deriving DecidableEq, Repr

/-- wx.Rect.left. -/
def Rect.left (r : Rect) : Int := r.x

/-- wx.Rect.top. -/
def Rect.top (r : Rect) : Int := r.y

/-- wx.Rect.right, the inclusive right coordinate `x + w - 1` as in
wxWidgets GetRight. -/
def Rect.right (r : Rect) : Int := r.x + r.w - 1

/-- wx.Rect.bottom, the inclusive bottom coordinate `y + h - 1` as in
wxWidgets GetBottom. -/
def Rect.bottom (r : Rect) : Int := r.y + r.h - 1

/-- wx.Rect.Intersects: wxWidgets clips the two rects against each other
using the inclusive right and bottom coordinates and reports whether the
resulting width and height are both positive. -/
def Rect.Intersects (r1 r2 : Rect) : Bool :=
  decide (max r1.x r2.x ≤ min r1.right r2.right) &&
  decide (max r1.y r2.y ≤ min r1.bottom r2.bottom)

/-- MakeEncirclingRect from threepy5/gui/wxutils.py: the rect with two
opposite vertices at p1 and p2, with nonnegative width and height. -/
def MakeEncirclingRect (p1 p2 : Point) : Rect :=
  ⟨min p1.x p2.x, min p1.y p2.y, |p1.x - p2.x|, |p1.y - p2.y|⟩

/-! ## The data-model layer, from threepy5/threepy5.py -/

namespace Model

/-- Content.RATING_MAX. -/
def RATING_MAX : Int := 3

/-- The data returned by Card.Dump: the dict `{"id": ..., "rect": ...}`.
Content, Header and Image do not override Dump or Load, so this is all
that any card variant ever serializes. -/
structure CardDumpData where
  id : Int
  rect : Rect
deriving DecidableEq, Repr

/-- The abstract base Card of threepy5.py: fields id and rect. -/
structure Card where
  id : Int
  rect : Rect
deriving DecidableEq, Repr

/-- Card.Dump: returns the dict with the id and the rect. -/
def Card.Dump (c : Card) : CardDumpData := ⟨c.id, c.rect⟩

/-- Card.Load: reads the id and the rect back from dumped data. -/
def Card.Load (c : Card) (data : CardDumpData) : Card :=
  { c with id := data.id, rect := data.rect }

/-- The Content card of threepy5.py: title, kind, rating, content,
collapsed, on top of the base id and rect. -/
structure Content where
  id : Int
  rect : Rect
  title : String
  kind : String
  rating : Int
  content : String
  collapsed : Bool
deriving DecidableEq, Repr

/-- A Content as built by the default constructor `Content()`: id is the
NO_ID sentinel -1 (assigned by the publisher base class, as asserted by
model_test.py), rect is DEFAULT_RECT_CONT = (0, 0, 250, 150), and the
remaining fields take their default values. -/
def Content.fresh : Content :=
  ⟨-1, ⟨0, 0, 250, 150⟩, "", "kind", 0, "", false⟩

/-- Content inherits Card.Dump unchanged: only id and rect are dumped. -/
def Content.Dump (c : Content) : CardDumpData := ⟨c.id, c.rect⟩

/-- Content inherits Card.Load unchanged: only id and rect are loaded. -/
def Content.Load (c : Content) (data : CardDumpData) : Content :=
  { c with id := data.id, rect := data.rect }

/-- Content.IncreaseRating: set the rating to one more than its current
value; with wrap, a value past RATING_MAX wraps to zero, otherwise the
method returns without changing anything. -/
def Content.IncreaseRating (c : Content) (wrap : Bool) : Content :=
  let new := c.rating + 1
  if wrap ∧ RATING_MAX < new then { c with rating := 0 }
  else if RATING_MAX < new then c
  else { c with rating := new }

/-- The Header card of threepy5.py: a header string on top of the base
fields. -/
structure Header where
  id : Int
  rect : Rect
  header : String
deriving DecidableEq, Repr

/-- A Header as built by the default constructor: NO_ID, NO_RECT
(0, 0, -1, -1) and the empty header. -/
def Header.fresh : Header := ⟨-1, ⟨0, 0, -1, -1⟩, ""⟩

/-- Header inherits Card.Dump unchanged: only id and rect are dumped. -/
def Header.Dump (c : Header) : CardDumpData := ⟨c.id, c.rect⟩

/-- Header inherits Card.Load unchanged: only id and rect are loaded. -/
def Header.Load (c : Header) (data : CardDumpData) : Header :=
  { c with id := data.id, rect := data.rect }

/-- The Image card of threepy5.py: a path and a scale on top of the base
fields.  The scale is a float defaulting to 1.0; as no claim computes
with it, an integer carrier is used. -/
structure Image where
  id : Int
  rect : Rect
  path : String
  scale : Int
deriving DecidableEq, Repr

/-- An Image as built by the default constructor: NO_ID, NO_RECT, empty
path, default scale. -/
def Image.fresh : Image := ⟨-1, ⟨0, 0, -1, -1⟩, "", 1⟩

/-- Image inherits Card.Dump unchanged: only id and rect are dumped. -/
def Image.Dump (c : Image) : CardDumpData := ⟨c.id, c.rect⟩

/-- Image inherits Card.Load unchanged: only id and rect are loaded. -/
def Image.Load (c : Image) (data : CardDumpData) : Image :=
  { c with id := data.id, rect := data.rect }

end Model

/-! ## The board interaction layer, from src/src/boardbase.py

The card widgets live in src/src/card.py, which is not among the sources;
their data content is modelled from the spec (section 3): a Content widget
carries title, kind, rating, content and collapsed state; a Header widget a
header text; an Image widget a path.  The board logic itself is translated
from src/src/boardbase.py. -/

/-- Modelled from the spec: the variant data of a card widget of the
missing src/src/card.py.  Spec section 3: Content has title, kind, rating
(0..RATING_MAX) and content plus a collapsed flag; Header has a header
string; Image has a file path. -/
inductive BData where
  | content (title kind content : String) (rating : Int) (collapsed : Bool)
  | header (txt : String)
  | image (path : String)
deriving DecidableEq, Repr

/-- A card widget as the board sees it: the internal label, the bounding
rect on the board, and the variant data. -/
structure BCard where
  label : Int
  rect : Rect
  data : BData
deriving DecidableEq, Repr

instance : Inhabited BCard := ⟨⟨0, ⟨0, 0, 0, 0⟩, .header ""⟩⟩

/-- BoardBase.CARD_PADDING. -/
def CARD_PADDING : Int := 15

/-- The state of a BoardBase relevant to the claims: the ordered cards
collection, the selected cards list and the scale factor (a float in the
source, 1.0 by default; integer carrier, since no claim divides it). -/
structure BoardState where
  cards : List BCard
  selected_cards : List BCard
  scale : Int
deriving DecidableEq, Repr

/-- Modelled from the spec: Content.DEFAULT_SZ of the missing card.py.
The concrete value follows the model layer DEFAULT_RECT_CONT (250 x 150);
no claim depends on the exact numbers. -/
def CONTENT_DEFAULT_SZ : Int × Int := (250, 150)

/-- Modelled from the spec: Header.DEFAULT_SZ of the missing card.py; a
fixed representative value, no claim depends on it. -/
def HEADER_DEFAULT_SZ : Int × Int := (150, 32)

/-- Modelled from the spec: Image.DEFAULT_SZ of the missing card.py; a
fixed representative value, no claim depends on it. -/
def IMAGE_DEFAULT_SZ : Int × Int := (50, 50)

/-- Modelled from the spec: Content.DEFAULT_TITLE of the missing card.py. -/
def CONTENT_DEFAULT_TITLE : String := ""

/-- Modelled from the spec: Content.DEFAULT_LBL, the default kind label,
of the missing card.py (the model layer default kind is "kind"). -/
def CONTENT_DEFAULT_LBL : String := "kind"

/-- Modelled from the spec: the default content text of a new Content
widget. -/
def CONTENT_DEFAULT_CONTENT : String := ""

/-- Modelled from the spec: Header.DEFAULT_TITLE of the missing card.py. -/
def HEADER_DEFAULT_TITLE : String := ""

/-- Modelled from the spec: Image.DEFAULT_PATH of the missing card.py. -/
def IMAGE_DEFAULT_PATH : String := ""

/-- The subclass dispatch of BoardBase.NewCard: the subclass name string
together with the optional kwargs each branch reads (Content reads title,
kind and content; Header reads txt and size; Image reads path). -/
inductive CardCtorArgs where
  | content (title kind content : Option String)
  | header (txt : Option String) (size : Option (Int × Int))
  | image (path : Option String)
deriving DecidableEq, Repr

/-- BoardBase.NewCard: if the label argument is the sentinel -1, the label
becomes the current card count; the new widget is created at pos with the
default size of its subclass scaled by the board scale (kwargs filling in
the variant fields); the card is appended to the cards collection.
Rating and collapsed state of a fresh Content widget start at their
defaults (modelled from the spec: 0 and not collapsed). -/
def NewCard (st : BoardState) (args : CardCtorArgs) (pos : Point) (label : Int) :
    BoardState × BCard :=
  let lbl : Int := if label = -1 then (st.cards.length : Int) else label
  let new : BCard :=
    match args with
    | .content title kind content =>
        ⟨lbl, ⟨pos.x, pos.y, CONTENT_DEFAULT_SZ.1 * st.scale, CONTENT_DEFAULT_SZ.2 * st.scale⟩,
          .content (title.getD CONTENT_DEFAULT_TITLE) (kind.getD CONTENT_DEFAULT_LBL)
            (content.getD CONTENT_DEFAULT_CONTENT) 0 false⟩
    | .header txt size =>
        let sz := size.getD HEADER_DEFAULT_SZ
        ⟨lbl, ⟨pos.x, pos.y, sz.1 * st.scale, sz.2 * st.scale⟩,
          .header (txt.getD HEADER_DEFAULT_TITLE)⟩
    | .image path =>
        ⟨lbl, ⟨pos.x, pos.y, IMAGE_DEFAULT_SZ.1 * st.scale, IMAGE_DEFAULT_SZ.2 * st.scale⟩,
          .image (path.getD IMAGE_DEFAULT_PATH)⟩
  ({ st with cards := st.cards ++ [new] }, new)

/-- BoardBase.GetSelection. -/
def GetSelection (st : BoardState) : List BCard := st.selected_cards

/-- BoardBase.SelectCard: with new_sel, unselect everything and make the
card the only selection; otherwise append the card only if it is not
already selected. -/
def SelectCard (st : BoardState) (card : BCard) (new_sel : Bool) : BoardState :=
  if new_sel then { st with selected_cards := [card] }
  else if card ∈ st.selected_cards then st
  else { st with selected_cards := st.selected_cards ++ [card] }

/-- BoardBase.UnselectCard: remove the card from the selection if it is
there (Python list.remove drops the first occurrence). -/
def UnselectCard (st : BoardState) (card : BCard) : BoardState :=
  if card ∈ st.selected_cards then
    { st with selected_cards := st.selected_cards.erase card }
  else st

/-- The loop of BoardBase.UnselectAll: while the selection is nonempty,
unselect its first element.  Removing the first occurrence of the head
drops exactly the head, so each iteration recurses on the tail. -/
def UnselectAllLoop : List BCard → List BCard
  | [] => []
  | _ :: rest => UnselectAllLoop rest

/-- BoardBase.UnselectAll. -/
def UnselectAll (st : BoardState) : BoardState :=
  { st with selected_cards := UnselectAllLoop st.selected_cards }

/-- BoardBase.DeleteSelected: remove every selected card from the cards
collection (list.remove drops the first occurrence of each), then
unselect everything. -/
def DeleteSelected (st : BoardState) : BoardState :=
  UnselectAll { st with cards := st.selected_cards.foldl (fun cs c => cs.erase c) st.cards }

/-- The selection pass of BoardBase.OnLeftUp: the encircling rect of the
press point and of the press point plus the accumulated drag offset is
built, and every card whose rect intersects it is selected (SelectCard
without new_sel). -/
def DragSelectRelease (st : BoardState) (init_pos cur_pos : Point) : BoardState :=
  let final_rect := MakeEncirclingRect init_pos (init_pos + cur_pos)
  let selected := st.cards.filter (fun c => c.rect.Intersects final_rect)
  selected.foldl (fun s c => SelectCard s c false) st

/-- A full drag-select gesture: OnLeftDown on empty board area unselects
everything and records the press point; OnDragSelect keeps cur_pos equal
to the pointer position minus the press point; OnLeftUp then selects the
cards intersecting the encircling rect of the press and release points. -/
def DragSelectGesture (st : BoardState) (press release : Point) : BoardState :=
  DragSelectRelease (UnselectAll st) press (release - press)

/-- Python min over a list of ints (the empty case never arises in the
translated code paths). -/
def pyMinInt : List Int → Int
  | [] => 0
  | x :: xs => xs.foldl min x

/-- Python max over a list of ints (the empty case never arises in the
translated code paths). -/
def pyMaxInt : List Int → Int
  | [] => 0
  | x :: xs => xs.foldl max x

/-- The position computation of BoardBase.PlaceNewCard when no explicit
position is given: an empty board yields the padded top-left corner; with
a focused card, right of it (or below it) plus padding; otherwise right
of the rightmost card, aligned to the topmost top. -/
def PlaceNewCardPos (cards : List BCard) (focused : Option BCard) (below : Bool) : Point :=
  if cards.length < 1 then ⟨CARD_PADDING, CARD_PADDING⟩
  else
    match focused with
    | some f =>
        if below then ⟨f.rect.left, f.rect.bottom + CARD_PADDING⟩
        else ⟨f.rect.right + CARD_PADDING, f.rect.top⟩
    | none =>
        let rects := cards.map (fun c => c.rect)
        let rights := rects.map Rect.right
        let top := pyMinInt (rects.map Rect.top)
        let left := pyMaxInt rights + CARD_PADDING
        ⟨left, top⟩

/-- BoardBase.PlaceNewCard with no explicit position: compute the
position, create the card there, and unselect everything (the focused
card is an input, wx focus being outside the model). -/
def PlaceNewCard (st : BoardState) (args : CardCtorArgs) (focused : Option BCard)
    (below : Bool) : BoardState :=
  let pos := PlaceNewCardPos st.cards focused below
  UnselectAll (NewCard st args pos (-1)).1

/-- The label sort used by GetNextCard and GetPrevCard (Python list.sort
with the label as key; mergeSort is stable like Python sort). -/
def sortByLabel (l : List BCard) : List BCard :=
  l.mergeSort (fun a b => decide (a.label ≤ b.label))

/-- BoardBase.GetNextCard, taking the current card directly (the source
resolves it from the focused control): the first card, by label, among
those with a greater label; if none and cycling, the first card by label
overall; if none and not cycling, nothing. -/
def GetNextCard (cards : List BCard) (card : BCard) (cycle : Bool) : Option BCard :=
  let greater := sortByLabel (cards.filter (fun c => decide (card.label < c.label)))
  match greater with
  | g :: _ => some g
  | [] => if cycle = false then none else (sortByLabel cards).head?

/-- BoardBase.GetPrevCard, the mirror of GetNextCard: the last card, by
label, among those with a smaller label; if none and cycling, the last
card by label overall; if none and not cycling, nothing. -/
def GetPrevCard (cards : List BCard) (card : BCard) (cycle : Bool) : Option BCard :=
  let lesser := sortByLabel (cards.filter (fun c => decide (c.label < card.label)))
  match lesser.getLast? with
  | some g => some g
  | none => if cycle = false then none else (sortByLabel cards).getLast?

/-- wx SetPosition on a card widget: move the rect, keeping the size. -/
def SetPosition (c : BCard) (p : Point) : BCard :=
  { c with rect := { c.rect with x := p.x, y := p.y } }

/-- The placement loop of BoardBase.HArrangeSelectedCards: each card is
moved to (left, top), and left advances to the moved card right edge plus
the padding. -/
def ArrangeRow (left top : Int) : List BCard → List BCard
  | [] => []
  | c :: cs =>
      SetPosition c ⟨left, top⟩ ::
        ArrangeRow ((SetPosition c ⟨left, top⟩).rect.right + CARD_PADDING) top cs

/-- The left-edge sort of HArrangeSelectedCards (Python list.sort with the
rect left as key; mergeSort is stable like Python sort). -/
def sortByLeft (l : List BCard) : List BCard :=
  l.mergeSort (fun a b => decide (a.rect.left ≤ b.rect.left))

/-- The card movement of BoardBase.HArrangeSelectedCards on a nonempty
list: anchor at the minimum left edge, take the top of the first card
attaining it, sort by left edge and lay the cards out in a row. -/
def HArrangeList (arrange : List BCard) : List BCard :=
  let lefts := arrange.map (fun c => c.rect.left)
  let left := pyMinInt lefts
  let anchor := (arrange.find? (fun c => decide (c.rect.left = left))).getD default
  let top := anchor.rect.top
  ArrangeRow left top (sortByLeft arrange)

/-- BoardBase.HArrangeSelectedCards: a no-op on an empty selection;
otherwise the selection is cleared and the selected card widgets are
repositioned in place.  The second component returns the repositioned
widgets (the cards collection holds the same, mutated, objects; cards not
in the selection are untouched by the loop). -/
def HArrangeSelectedCards (st : BoardState) : BoardState × List BCard :=
  if st.selected_cards.length < 1 then (st, [])
  else (UnselectAll st, HArrangeList st.selected_cards)

/-- The loop body of BoardBase.CopySelected: a new card is created offset
by the padding in both axes; a Content original passes its title, kind
and content to NewCard, a Header passes its header text, and any other
kind is skipped.  The accumulator carries the board and the created
cards. -/
def CopyStep (acc : BoardState × List BCard) (c : BCard) : BoardState × List BCard :=
  match c.data with
  | .content title kind content _ _ =>
      let r := NewCard acc.1 (.content (some title) (some kind) (some content))
        ⟨c.rect.x + CARD_PADDING, c.rect.y + CARD_PADDING⟩ (-1)
      (r.1, acc.2 ++ [r.2])
  | .header txt =>
      let r := NewCard acc.1 (.header (some txt) none)
        ⟨c.rect.x + CARD_PADDING, c.rect.y + CARD_PADDING⟩ (-1)
      (r.1, acc.2 ++ [r.2])
  | .image _ => acc

/-- BoardBase.CopySelected: run the copy loop over the selected cards in
order, then unselect everything and select the new cards one by one. -/
def CopySelected (st : BoardState) : BoardState :=
  let res := st.selected_cards.foldl CopyStep (st, [])
  let st2 := UnselectAll res.1
  res.2.foldl (fun s c => SelectCard s c false) st2

/-- The data a copy keeps, in the words of the amended copy claim: a
Content duplicate keeps title, kind and content with rating and collapsed
state back at their creation defaults; a Header duplicate keeps the
header text; other kinds are not duplicated. -/
def CopyDataOf : BData → Option BData
  | .content title kind content _ _ => some (.content title kind content 0 false)
  | .header txt => some (.header txt)
  | .image _ => none

/-- The selected cards that CopySelected duplicates (Content and Header). -/
def keepCopyable (l : List BCard) : List BCard :=
  l.filter (fun c => (CopyDataOf c.data).isSome)

/-- The duplicate that CopySelected is expected to create for the card c
when the board held lbl cards at creation time: label lbl, position
offset by the padding in both axes, default scaled size for the variant,
and the copied data. -/
def ExpectedCopy (scale : Int) (lbl : Nat) (c : BCard) : BCard :=
  let sz := match c.data with
    | .content _ _ _ _ _ => CONTENT_DEFAULT_SZ
    | .header _ => HEADER_DEFAULT_SZ
    | .image _ => IMAGE_DEFAULT_SZ
  ⟨(lbl : Int), ⟨c.rect.x + CARD_PADDING, c.rect.y + CARD_PADDING, sz.1 * scale, sz.2 * scale⟩,
    (CopyDataOf c.data).getD c.data⟩

/-- The full list of duplicates CopySelected is expected to create from
the selection sel of a board with n cards: the copyable cards in order,
each with the next sequential label. -/
def ExpectedCopies (scale : Int) (n : Nat) (sel : List BCard) : List BCard :=
  ((keepCopyable sel).enumFrom n).map (fun p => ExpectedCopy scale p.1 p.2)

/-! ## Helper lemmas -/

theorem unselectAllLoop_eq_nil (l : List BCard) : UnselectAllLoop l = [] := by
  induction l with
  | nil => rfl
  | cons c rest ih => simpa [UnselectAllLoop] using ih

theorem unselectAll_selected (st : BoardState) : (UnselectAll st).selected_cards = [] := by
  simp [UnselectAll, unselectAllLoop_eq_nil]

theorem unselectAll_cards (st : BoardState) : (UnselectAll st).cards = st.cards := rfl

theorem unselectAll_scale (st : BoardState) : (UnselectAll st).scale = st.scale := rfl

theorem point_add_sub (a b : Point) : a + (b - a) = b := by
  cases a
  cases b
  show Point.add _ (Point.sub _ _) = _
  simp [Point.add, Point.sub]

theorem selectCard_false_mem (st : BoardState) (a c : BCard) :
    c ∈ (SelectCard st a false).selected_cards ↔ c ∈ st.selected_cards ∨ c = a := by
  by_cases h : a ∈ st.selected_cards
  · have heq : SelectCard st a false = st := by simp [SelectCard, h]
    rw [heq]
    constructor
    · exact fun hc => Or.inl hc
    · rintro (hc | rfl)
      · exact hc
      · exact h
  · have heq : (SelectCard st a false).selected_cards = st.selected_cards ++ [a] := by
      simp [SelectCard, h]
    rw [heq]
    simp

theorem selectCard_cards (st : BoardState) (a : BCard) (b : Bool) :
    (SelectCard st a b).cards = st.cards := by
  simp only [SelectCard]
  split_ifs <;> rfl

theorem selectCard_scale (st : BoardState) (a : BCard) (b : Bool) :
    (SelectCard st a b).scale = st.scale := by
  simp only [SelectCard]
  split_ifs <;> rfl

theorem select_fold_mem (l : List BCard) (st : BoardState) (c : BCard) :
    c ∈ (l.foldl (fun s x => SelectCard s x false) st).selected_cards ↔
      c ∈ st.selected_cards ∨ c ∈ l := by
  induction l generalizing st with
  | nil => simp
  | cons a rest ih =>
      rw [List.foldl_cons, ih, selectCard_false_mem]
      simp only [List.mem_cons]
      tauto

theorem select_fold_cards (l : List BCard) (st : BoardState) :
    (l.foldl (fun s x => SelectCard s x false) st).cards = st.cards := by
  induction l generalizing st with
  | nil => rfl
  | cons a rest ih => rw [List.foldl_cons, ih, selectCard_cards]

theorem select_fold_scale (l : List BCard) (st : BoardState) :
    (l.foldl (fun s x => SelectCard s x false) st).scale = st.scale := by
  induction l generalizing st with
  | nil => rfl
  | cons a rest ih => rw [List.foldl_cons, ih, selectCard_scale]

theorem foldl_min_le (xs : List Int) (x : Int) : ∀ a ∈ x :: xs, xs.foldl min x ≤ a := by
  induction xs generalizing x with
  | nil =>
      intro a ha
      rw [List.mem_singleton.mp ha]
      simp
  | cons y ys ih =>
      intro a ha
      rw [List.foldl_cons]
      rcases List.mem_cons.mp ha with h | h
      · rw [h]
        exact le_trans (ih (min x y) (min x y) (List.mem_cons_self _ _)) (min_le_left _ _)
      · rcases List.mem_cons.mp h with h2 | h2
        · rw [h2]
          exact le_trans (ih (min x y) (min x y) (List.mem_cons_self _ _)) (min_le_right _ _)
        · exact ih (min x y) a (List.mem_cons_of_mem _ h2)

theorem foldl_min_mem (xs : List Int) (x : Int) : xs.foldl min x ∈ x :: xs := by
  induction xs generalizing x with
  | nil => simp
  | cons y ys ih =>
      rw [List.foldl_cons]
      rcases List.mem_cons.mp (ih (min x y)) with h | h
      · rw [h]
        rcases min_choice x y with hm | hm <;> rw [hm] <;> simp
      · simp [List.mem_cons_of_mem, h]

theorem foldl_max_le (xs : List Int) (x : Int) : ∀ a ∈ x :: xs, a ≤ xs.foldl max x := by
  induction xs generalizing x with
  | nil =>
      intro a ha
      rw [List.mem_singleton.mp ha]
      simp
  | cons y ys ih =>
      intro a ha
      rw [List.foldl_cons]
      rcases List.mem_cons.mp ha with h | h
      · rw [h]
        exact le_trans (le_max_left _ _) (ih (max x y) (max x y) (List.mem_cons_self _ _))
      · rcases List.mem_cons.mp h with h2 | h2
        · rw [h2]
          exact le_trans (le_max_right _ _) (ih (max x y) (max x y) (List.mem_cons_self _ _))
        · exact ih (max x y) a (List.mem_cons_of_mem _ h2)

theorem foldl_max_mem (xs : List Int) (x : Int) : xs.foldl max x ∈ x :: xs := by
  induction xs generalizing x with
  | nil => simp
  | cons y ys ih =>
      rw [List.foldl_cons]
      rcases List.mem_cons.mp (ih (max x y)) with h | h
      · rw [h]
        rcases max_choice x y with hm | hm <;> rw [hm] <;> simp
      · simp [List.mem_cons_of_mem, h]

theorem pyMinInt_spec (l : List Int) (h : l ≠ []) :
    pyMinInt l ∈ l ∧ ∀ a ∈ l, pyMinInt l ≤ a := by
  match l with
  | [] => exact absurd rfl h
  | x :: xs => exact ⟨foldl_min_mem xs x, foldl_min_le xs x⟩

theorem pyMaxInt_spec (l : List Int) (h : l ≠ []) :
    pyMaxInt l ∈ l ∧ ∀ a ∈ l, a ≤ pyMaxInt l := by
  match l with
  | [] => exact absurd rfl h
  | x :: xs => exact ⟨foldl_max_mem xs x, foldl_max_le xs x⟩

theorem sortByLabel_perm (l : List BCard) : (sortByLabel l).Perm l :=
  List.mergeSort_perm l _

theorem sortByLabel_pairwise (l : List BCard) :
    (sortByLabel l).Pairwise (fun a b => a.label ≤ b.label) := by
  have h := @List.sorted_mergeSort BCard (fun a b : BCard => decide (a.label ≤ b.label))
    (fun a b c hab hbc => by
      simp only [decide_eq_true_eq] at *
      omega)
    (fun a b => by
      simp only [Bool.or_eq_true, decide_eq_true_eq]
      omega)
    l
  exact h.imp (fun hab => by simpa using hab)

theorem pairwise_head_min {l : List BCard}
    (hp : l.Pairwise (fun a b => a.label ≤ b.label)) (hne : l ≠ []) :
    ∃ m, l.head? = some m ∧ m ∈ l ∧ ∀ c ∈ l, m.label ≤ c.label := by
  cases l with
  | nil => exact absurd rfl hne
  | cons m t =>
      refine ⟨m, rfl, List.mem_cons_self _ _, fun c hc => ?_⟩
      rcases List.mem_cons.mp hc with h | h
      · rw [h]
      · exact (List.pairwise_cons.mp hp).1 c h

theorem pairwise_getLast_max {l : List BCard}
    (hp : l.Pairwise (fun a b => a.label ≤ b.label)) (hne : l ≠ []) :
    ∃ m, l.getLast? = some m ∧ m ∈ l ∧ ∀ c ∈ l, c.label ≤ m.label := by
  have hrev : l.reverse.Pairwise (fun a b => b.label ≤ a.label) :=
    List.pairwise_reverse.mpr hp
  have hner : l.reverse ≠ [] := by simpa using hne
  cases hl : l.reverse with
  | nil => exact absurd hl hner
  | cons m t =>
      rw [hl] at hrev
      refine ⟨m, ?_, ?_, fun c hc => ?_⟩
      · rw [← List.head?_reverse, hl]
        rfl
      · have : m ∈ l.reverse := by rw [hl]; exact List.mem_cons_self _ _
        simpa using this
      · have hcr : c ∈ l.reverse := by simpa using hc
        rw [hl] at hcr
        rcases List.mem_cons.mp hcr with h | h
        · rw [h]
        · exact (List.pairwise_cons.mp hrev).1 c h

theorem sortByLabel_head_min (l : List BCard) (hne : l ≠ []) :
    ∃ m, (sortByLabel l).head? = some m ∧ m ∈ l ∧ ∀ c ∈ l, m.label ≤ c.label := by
  have hne2 : sortByLabel l ≠ [] := by
    intro h
    exact hne (List.Perm.eq_nil ((sortByLabel_perm l).symm.trans (h ▸ List.Perm.refl _)))
  obtain ⟨m, hm, hmem, hmin⟩ := pairwise_head_min (sortByLabel_pairwise l) hne2
  exact ⟨m, hm, (sortByLabel_perm l).mem_iff.mp hmem,
    fun c hc => hmin c ((sortByLabel_perm l).mem_iff.mpr hc)⟩

theorem sortByLabel_getLast_max (l : List BCard) (hne : l ≠ []) :
    ∃ m, (sortByLabel l).getLast? = some m ∧ m ∈ l ∧ ∀ c ∈ l, c.label ≤ m.label := by
  have hne2 : sortByLabel l ≠ [] := by
    intro h
    exact hne (List.Perm.eq_nil ((sortByLabel_perm l).symm.trans (h ▸ List.Perm.refl _)))
  obtain ⟨m, hm, hmem, hmax⟩ := pairwise_getLast_max (sortByLabel_pairwise l) hne2
  exact ⟨m, hm, (sortByLabel_perm l).mem_iff.mp hmem,
    fun c hc => hmax c ((sortByLabel_perm l).mem_iff.mpr hc)⟩

theorem sortByLeft_perm (l : List BCard) : (sortByLeft l).Perm l :=
  List.mergeSort_perm l _

theorem sortByLeft_pairwise (l : List BCard) :
    (sortByLeft l).Pairwise (fun a b => a.rect.left ≤ b.rect.left) := by
  have h := @List.sorted_mergeSort BCard (fun a b : BCard => decide (a.rect.left ≤ b.rect.left))
    (fun a b c hab hbc => by
      simp only [decide_eq_true_eq] at *
      omega)
    (fun a b => by
      simp only [Bool.or_eq_true, decide_eq_true_eq]
      omega)
    l
  exact h.imp (fun hab => by simpa using hab)

theorem arrangeRow_tops (l : List BCard) (left top : Int) :
    ∀ m ∈ ArrangeRow left top l, m.rect.y = top := by
  induction l generalizing left with
  | nil => simp [ArrangeRow]
  | cons c cs ih =>
      intro m hm
      rw [ArrangeRow] at hm
      rcases List.mem_cons.mp hm with h | h
      · rw [h]
        rfl
      · exact ih _ m h

theorem arrangeRow_chain (l : List BCard) (left top : Int) :
    List.Chain' (fun a b => b.rect.x = a.rect.right + CARD_PADDING)
      (ArrangeRow left top l) := by
  induction l generalizing left with
  | nil => simp [ArrangeRow]
  | cons c cs ih =>
      rw [ArrangeRow]
      refine List.chain'_cons'.mpr ⟨?_, ih _⟩
      intro b hb
      cases cs with
      | nil => simp [ArrangeRow] at hb
      | cons d ds =>
          rw [ArrangeRow] at hb
          simp only [List.head?_cons, Option.mem_def, Option.some.injEq] at hb
          rw [← hb]
          rfl

theorem arrangeRow_core (l : List BCard) (left top : Int) :
    (ArrangeRow left top l).map (fun c => (c.label, c.data, c.rect.w, c.rect.h)) =
      l.map (fun c => (c.label, c.data, c.rect.w, c.rect.h)) := by
  induction l generalizing left with
  | nil => rfl
  | cons c cs ih =>
      rw [ArrangeRow, List.map_cons, List.map_cons, ih]
      rfl

theorem expectedCopies_nil (s : Int) (n : Nat) : ExpectedCopies s n [] = [] := rfl

theorem expectedCopies_cons_copyable (s : Int) (n : Nat) (c : BCard) (cs : List BCard)
    (h : (CopyDataOf c.data).isSome = true) :
    ExpectedCopies s n (c :: cs) = ExpectedCopy s n c :: ExpectedCopies s (n + 1) cs := by
  simp [ExpectedCopies, keepCopyable, List.filter_cons, h, List.enumFrom_cons]

theorem expectedCopies_cons_skip (s : Int) (n : Nat) (c : BCard) (cs : List BCard)
    (h : CopyDataOf c.data = none) :
    ExpectedCopies s n (c :: cs) = ExpectedCopies s n cs := by
  simp [ExpectedCopies, keepCopyable, List.filter_cons, h]

theorem copy_fold_spec (sel : List BCard) (st : BoardState) (acc : List BCard) :
    (sel.foldl CopyStep (st, acc)).1.cards =
        st.cards ++ ExpectedCopies st.scale st.cards.length sel ∧
    (sel.foldl CopyStep (st, acc)).1.selected_cards = st.selected_cards ∧
    (sel.foldl CopyStep (st, acc)).1.scale = st.scale ∧
    (sel.foldl CopyStep (st, acc)).2 = acc ++ ExpectedCopies st.scale st.cards.length sel := by
  induction sel generalizing st acc with
  | nil => simp [expectedCopies_nil]
  | cons c cs ih =>
      rw [List.foldl_cons]
      cases hcd : c.data with
      | content t k co r col =>
          have hstep : CopyStep (st, acc) c =
              ({ st with cards := st.cards ++ [ExpectedCopy st.scale st.cards.length c] },
                acc ++ [ExpectedCopy st.scale st.cards.length c]) := by
            simp [CopyStep, hcd, NewCard, ExpectedCopy, CopyDataOf]
          have hcop : (CopyDataOf c.data).isSome = true := by simp [hcd, CopyDataOf]
          rw [hstep]
          obtain ⟨ih1, ih2, ih3, ih4⟩ :=
            ih { st with cards := st.cards ++ [ExpectedCopy st.scale st.cards.length c] }
              (acc ++ [ExpectedCopy st.scale st.cards.length c])
          simp only [List.length_append, List.length_cons, List.length_nil, Nat.zero_add]
            at ih1 ih4
          rw [expectedCopies_cons_copyable _ _ _ _ hcop]
          refine ⟨?_, ih2, ih3, ?_⟩
          · rw [ih1]
            simp
          · rw [ih4]
            simp
      | header t =>
          have hstep : CopyStep (st, acc) c =
              ({ st with cards := st.cards ++ [ExpectedCopy st.scale st.cards.length c] },
                acc ++ [ExpectedCopy st.scale st.cards.length c]) := by
            simp [CopyStep, hcd, NewCard, ExpectedCopy, CopyDataOf]
          have hcop : (CopyDataOf c.data).isSome = true := by simp [hcd, CopyDataOf]
          rw [hstep]
          obtain ⟨ih1, ih2, ih3, ih4⟩ :=
            ih { st with cards := st.cards ++ [ExpectedCopy st.scale st.cards.length c] }
              (acc ++ [ExpectedCopy st.scale st.cards.length c])
          simp only [List.length_append, List.length_cons, List.length_nil, Nat.zero_add]
            at ih1 ih4
          rw [expectedCopies_cons_copyable _ _ _ _ hcop]
          refine ⟨?_, ih2, ih3, ?_⟩
          · rw [ih1]
            simp
          · rw [ih4]
            simp
      | image p =>
          have hstep : CopyStep (st, acc) c = (st, acc) := by
            simp [CopyStep, hcd]
          have hskip : CopyDataOf c.data = none := by simp [hcd, CopyDataOf]
          rw [hstep, expectedCopies_cons_skip _ _ _ _ hskip]
          exact ih st acc

theorem select_fold_append (l : List BCard) (st : BoardState)
    (h : (st.selected_cards ++ l).Nodup) :
    (l.foldl (fun s c => SelectCard s c false) st).selected_cards =
      st.selected_cards ++ l := by
  induction l generalizing st with
  | nil => simp
  | cons a rest ih =>
      have hna : a ∉ st.selected_cards := by
        rw [List.nodup_append] at h
        intro hmem
        exact h.2.2 hmem (List.mem_cons_self a rest)
      have hstep : (SelectCard st a false).selected_cards = st.selected_cards ++ [a] := by
        simp [SelectCard, hna]
      have h' : ((SelectCard st a false).selected_cards ++ rest).Nodup := by
        rw [hstep, List.append_assoc]
        simpa using h
      rw [List.foldl_cons, ih _ h', hstep, List.append_assoc]
      simp

theorem expectedCopies_label_map (s : Int) (n : Nat) (l : List BCard) :
    (ExpectedCopies s n l).map (fun c => c.label) =
      (((keepCopyable l).enumFrom n).map Prod.fst).map (fun m : Nat => (m : Int)) := by
  simp only [ExpectedCopies, List.map_map]
  congr 1

theorem expectedCopies_nodup (s : Int) (n : Nat) (l : List BCard) :
    (ExpectedCopies s n l).Nodup := by
  apply List.Nodup.of_map (fun c : BCard => c.label)
  rw [expectedCopies_label_map, List.enumFrom_map_fst]
  exact (List.nodup_range' n _).map Nat.cast_injective

theorem copySelected_selected_cards (st : BoardState) :
    (CopySelected st).selected_cards =
      ExpectedCopies st.scale st.cards.length st.selected_cards := by
  unfold CopySelected
  dsimp only
  obtain ⟨h1, h2, h3, h4⟩ := copy_fold_spec st.selected_cards st []
  rw [h4, List.nil_append]
  have hnodup : ((UnselectAll (st.selected_cards.foldl CopyStep (st, [])).1).selected_cards ++
      ExpectedCopies st.scale st.cards.length st.selected_cards).Nodup := by
    rw [unselectAll_selected, List.nil_append]
    exact expectedCopies_nodup _ _ _
  rw [select_fold_append _ _ hnodup, unselectAll_selected, List.nil_append]

theorem copySelected_cards (st : BoardState) :
    (CopySelected st).cards =
      st.cards ++ ExpectedCopies st.scale st.cards.length st.selected_cards := by
  unfold CopySelected
  dsimp only
  obtain ⟨h1, h2, h3, h4⟩ := copy_fold_spec st.selected_cards st []
  rw [select_fold_cards, unselectAll_cards, h1]

theorem selectCard_nodup (st : BoardState) (c : BCard) (b : Bool)
    (h : st.selected_cards.Nodup) : ((SelectCard st c b).selected_cards).Nodup := by
  unfold SelectCard
  split_ifs with h1 h2
  · simp
  · exact h
  · simp [List.nodup_append, h, h2]

theorem select_fold_nodup (l : List BCard) (st : BoardState)
    (h : st.selected_cards.Nodup) :
    ((l.foldl (fun s c => SelectCard s c false) st).selected_cards).Nodup := by
  induction l generalizing st with
  | nil => exact h
  | cons a rest ih => exact ih _ (selectCard_nodup st a false h)

/-! ## Claim theorems -/

/-- Claim C1 (code bug): the round trip Dump then Load is not the
identity on the card variants.  Card.Dump serializes only the id and the
rect, and Content, Header and Image never override Dump or Load, so
reconstructing a Content from dumped data recovers id and rect exactly
but loses title, kind, rating, content and collapsed state (and a Header
loses its header); only for the abstract base Card is the round trip the
identity. -/
theorem dump_load_drops_subclass_fields :
    (let orig : Model.Content := ⟨5, ⟨1, 2, 3, 4⟩, "T", "Concept", 2, "body", true⟩
     let reloaded := Model.Content.fresh.Load orig.Dump
     reloaded.id = orig.id ∧ reloaded.rect = orig.rect ∧
       reloaded ≠ orig ∧ reloaded.title = "" ∧ reloaded.rating = 0 ∧
       reloaded.collapsed = false) ∧
    (let origH : Model.Header := ⟨7, ⟨0, 0, 10, 10⟩, "H"⟩
     let reloadedH := Model.Header.fresh.Load origH.Dump
     reloadedH ≠ origH ∧ reloadedH.header = "") ∧
    (∀ c c0 : Model.Card, c0.Load c.Dump = c) := by
  refine ⟨by decide, by decide, fun c c0 => ?_⟩
  cases c
  rfl

/-- Claim C2: for a Content whose rating lies in [0, RATING_MAX],
IncreaseRating with wrap sends a maximal rating to zero, without wrap it
leaves a maximal rating (and the whole card) unchanged, in every other
case it increments the rating by one, and the result always stays inside
[0, RATING_MAX]. -/
theorem increaseRating_spec (c : Model.Content) (h0 : 0 ≤ c.rating)
    (h1 : c.rating ≤ Model.RATING_MAX) :
    (c.rating = Model.RATING_MAX → (c.IncreaseRating true).rating = 0) ∧
    (c.rating = Model.RATING_MAX → c.IncreaseRating false = c) ∧
    (∀ w, c.rating < Model.RATING_MAX → (c.IncreaseRating w).rating = c.rating + 1) ∧
    (∀ w, 0 ≤ (c.IncreaseRating w).rating ∧ (c.IncreaseRating w).rating ≤ Model.RATING_MAX) := by
  unfold Model.Content.IncreaseRating Model.RATING_MAX at *
  refine ⟨fun h => ?_, fun h => ?_, fun w h => ?_, fun w => ?_⟩
  · dsimp only
    split_ifs <;> simp_all <;> omega
  · dsimp only
    split_ifs <;> simp_all <;> omega
  · dsimp only
    split_ifs <;> simp_all <;> omega
  · dsimp only
    split_ifs <;> simp_all <;> omega

/-- Witness for claim C2 at rating RATING_MAX = 3 with wrap. -/
theorem increaseRating_spec_witness :
    (Model.Content.IncreaseRating ⟨-1, ⟨0, 0, 250, 150⟩, "", "kind", 3, "", false⟩ true).rating
      = 0 :=
  (increaseRating_spec ⟨-1, ⟨0, 0, 250, 150⟩, "", "kind", 3, "", false⟩ (by decide)
    (by decide)).1 rfl

/-- Claim C3: completing a drag-select gesture from a press point to a
release point selects exactly the cards whose rect intersects the
encircling rect of the two points; that rect is normalized to nonnegative
width and height whatever the drag direction, with corners (10,10) and
(100,100) giving Rect(10,10,90,90); on a concrete board, a card fully
inside and a card partly overlapping are selected while a card fully
outside is not. -/
theorem dragSelect_selects_intersecting :
    (∀ (st : BoardState) (p1 p2 : Point) (c : BCard),
        c ∈ (DragSelectGesture st p1 p2).selected_cards ↔
          c ∈ st.cards ∧ c.rect.Intersects (MakeEncirclingRect p1 p2) = true) ∧
    MakeEncirclingRect ⟨10, 10⟩ ⟨100, 100⟩ = ⟨10, 10, 90, 90⟩ ∧
    (∀ p1 p2 : Point, 0 ≤ (MakeEncirclingRect p1 p2).w ∧ 0 ≤ (MakeEncirclingRect p1 p2).h ∧
        MakeEncirclingRect p1 p2 = MakeEncirclingRect p2 p1) ∧
    (let inside : BCard := ⟨0, ⟨20, 20, 30, 30⟩, .header "inside"⟩
     let outside : BCard := ⟨1, ⟨200, 200, 10, 10⟩, .header "outside"⟩
     let partway : BCard := ⟨2, ⟨90, 90, 50, 50⟩, .header "partway"⟩
     (DragSelectGesture ⟨[inside, outside, partway], [outside], 1⟩ ⟨10, 10⟩
         ⟨100, 100⟩).selected_cards = [inside, partway]) := by
  refine ⟨fun st p1 p2 c => ?_, by decide, fun p1 p2 => ?_, by decide⟩
  · unfold DragSelectGesture DragSelectRelease
    rw [point_add_sub]
    dsimp only
    rw [select_fold_mem]
    simp [unselectAll_selected, unselectAll_cards, List.mem_filter]
  · exact ⟨abs_nonneg _, abs_nonneg _, by simp [MakeEncirclingRect, min_comm, abs_sub_comm]⟩

/-- Claim C4: the position computed by PlaceNewCard with no explicit
position: the padded top-left corner on an empty board; right of the
focused card plus padding at the same top (or below it plus padding at
the same left) when a card has focus; otherwise x is the maximal right
edge over all cards plus padding and y is the minimal top edge. -/
theorem placeNewCard_pos_spec (cards : List BCard) (focused : Option BCard) (below : Bool) :
    (cards = [] → PlaceNewCardPos cards focused below = ⟨CARD_PADDING, CARD_PADDING⟩) ∧
    (∀ f, cards ≠ [] → focused = some f →
        PlaceNewCardPos cards focused below =
          if below then ⟨f.rect.left, f.rect.bottom + CARD_PADDING⟩
          else ⟨f.rect.right + CARD_PADDING, f.rect.top⟩) ∧
    (cards ≠ [] → focused = none →
        (∀ c ∈ cards, c.rect.right + CARD_PADDING ≤ (PlaceNewCardPos cards focused below).x) ∧
        (∃ c ∈ cards, (PlaceNewCardPos cards focused below).x = c.rect.right + CARD_PADDING) ∧
        (∀ c ∈ cards, (PlaceNewCardPos cards focused below).y ≤ c.rect.top) ∧
        (∃ c ∈ cards, (PlaceNewCardPos cards focused below).y = c.rect.top)) := by
  have hlen : cards ≠ [] → ¬ (cards.length < 1) := by
    intro hne
    cases cards with
    | nil => exact absurd rfl hne
    | cons a l => simp
  refine ⟨fun h => ?_, fun f hne hf => ?_, fun hne hf => ?_⟩
  · subst h
    rfl
  · subst hf
    simp [PlaceNewCardPos, hlen hne]
  · subst hf
    have hpos : PlaceNewCardPos cards none below =
        ⟨pyMaxInt (cards.map (fun c => c.rect.right)) + CARD_PADDING,
          pyMinInt (cards.map (fun c => c.rect.top))⟩ := by
      simp [PlaceNewCardPos, hlen hne, List.map_map, Function.comp_def]
    rw [hpos]
    dsimp only
    have hner : cards.map (fun c => c.rect.right) ≠ [] := by simp [hne]
    have hnet : cards.map (fun c => c.rect.top) ≠ [] := by simp [hne]
    obtain ⟨hmaxmem, hmaxle⟩ := pyMaxInt_spec _ hner
    obtain ⟨hminmem, hminle⟩ := pyMinInt_spec _ hnet
    refine ⟨?_, ?_, ?_, ?_⟩
    · intro c hc
      have hm : c.rect.right ∈ cards.map (fun c => c.rect.right) :=
        List.mem_map.mpr ⟨c, hc, rfl⟩
      have := hmaxle _ hm
      omega
    · rcases List.mem_map.mp hmaxmem with ⟨c, hc, hval⟩
      exact ⟨c, hc, by rw [← hval]⟩
    · intro c hc
      have hm : c.rect.top ∈ cards.map (fun c => c.rect.top) :=
        List.mem_map.mpr ⟨c, hc, rfl⟩
      exact hminle _ hm
    · rcases List.mem_map.mp hminmem with ⟨c, hc, hval⟩
      exact ⟨c, hc, by rw [← hval]⟩

/-- Witness for claim C4: the empty board places at the padded corner. -/
theorem placeNewCard_pos_spec_witness :
    PlaceNewCardPos [] none false = ⟨15, 15⟩ :=
  (placeNewCard_pos_spec [] none false).1 rfl

/-- Claim C7: navigation is a cyclic total order on labels.  GetNextCard
returns the card with the smallest label strictly greater than the
current label when one exists; otherwise, with cycle, the card with the
smallest label overall, and without cycle nothing.  GetPrevCard mirrors
this with the largest smaller label and largest-label wraparound. -/
theorem getNextPrev_card_spec (cards : List BCard) (cur : BCard) (hmem : cur ∈ cards) :
    ((∃ g ∈ cards, cur.label < g.label) → ∀ cycle,
        ∃ g, GetNextCard cards cur cycle = some g ∧ g ∈ cards ∧ cur.label < g.label ∧
          ∀ c ∈ cards, cur.label < c.label → g.label ≤ c.label) ∧
    ((∀ c ∈ cards, ¬ cur.label < c.label) →
        GetNextCard cards cur false = none ∧
        ∃ m, GetNextCard cards cur true = some m ∧ m ∈ cards ∧ ∀ c ∈ cards, m.label ≤ c.label) ∧
    ((∃ g ∈ cards, g.label < cur.label) → ∀ cycle,
        ∃ g, GetPrevCard cards cur cycle = some g ∧ g ∈ cards ∧ g.label < cur.label ∧
          ∀ c ∈ cards, c.label < cur.label → c.label ≤ g.label) ∧
    ((∀ c ∈ cards, ¬ c.label < cur.label) →
        GetPrevCard cards cur false = none ∧
        ∃ m, GetPrevCard cards cur true = some m ∧ m ∈ cards ∧ ∀ c ∈ cards, c.label ≤ m.label) := by
  have hcne : cards ≠ [] := List.ne_nil_of_mem hmem
  refine ⟨?_, ?_, ?_, ?_⟩
  · rintro ⟨g, hg, hlt⟩ cycle
    have hfne : cards.filter (fun c => decide (cur.label < c.label)) ≠ [] := by
      intro h
      have hgf : g ∈ cards.filter (fun c => decide (cur.label < c.label)) :=
        List.mem_filter.mpr ⟨hg, by simpa using hlt⟩
      rw [h] at hgf
      exact absurd hgf (List.not_mem_nil g)
    obtain ⟨m, hm, hmemf, hmin⟩ := sortByLabel_head_min _ hfne
    obtain ⟨hmc, hml⟩ := List.mem_filter.mp hmemf
    refine ⟨m, ?_, hmc, by simpa using hml, fun c hc hlc => ?_⟩
    · unfold GetNextCard
      cases hs : sortByLabel (cards.filter (fun c => decide (cur.label < c.label))) with
      | nil =>
          rw [hs] at hm
          cases hm
      | cons a t =>
          rw [hs] at hm
          simpa using hm
    · exact hmin c (List.mem_filter.mpr ⟨hc, by simpa using hlc⟩)
  · intro hno
    have hfe : cards.filter (fun c => decide (cur.label < c.label)) = [] := by
      rw [List.filter_eq_nil_iff]
      intro c hc
      simpa using hno c hc
    have hnil : sortByLabel ([] : List BCard) = [] := by simp [sortByLabel]
    obtain ⟨m, hm, hmemc, hminc⟩ := sortByLabel_head_min cards hcne
    constructor
    · unfold GetNextCard
      rw [hfe, hnil]
      simp
    · refine ⟨m, ?_, hmemc, hminc⟩
      unfold GetNextCard
      rw [hfe, hnil]
      simpa using hm
  · rintro ⟨g, hg, hlt⟩ cycle
    have hfne : cards.filter (fun c => decide (c.label < cur.label)) ≠ [] := by
      intro h
      have hgf : g ∈ cards.filter (fun c => decide (c.label < cur.label)) :=
        List.mem_filter.mpr ⟨hg, by simpa using hlt⟩
      rw [h] at hgf
      exact absurd hgf (List.not_mem_nil g)
    obtain ⟨m, hm, hmemf, hmax⟩ := sortByLabel_getLast_max _ hfne
    obtain ⟨hmc, hml⟩ := List.mem_filter.mp hmemf
    refine ⟨m, ?_, hmc, by simpa using hml, fun c hc hlc => ?_⟩
    · unfold GetPrevCard
      dsimp only
      rw [hm]
    · exact hmax c (List.mem_filter.mpr ⟨hc, by simpa using hlc⟩)
  · intro hno
    have hfe : cards.filter (fun c => decide (c.label < cur.label)) = [] := by
      rw [List.filter_eq_nil_iff]
      intro c hc
      simpa using hno c hc
    have hnil : sortByLabel ([] : List BCard) = [] := by simp [sortByLabel]
    obtain ⟨m, hm, hmemc, hmaxc⟩ := sortByLabel_getLast_max cards hcne
    constructor
    · unfold GetPrevCard
      rw [hfe, hnil]
      simp
    · refine ⟨m, ?_, hmemc, hmaxc⟩
      unfold GetPrevCard
      rw [hfe, hnil]
      simpa using hm

/-- Witness for claim C7: on cards labeled 0, 1 and 2, the next card
after label 2 is the card labeled 0 with cycling and nothing without. -/
theorem getNextPrev_card_spec_witness :
    GetNextCard
        [⟨0, ⟨15, 15, 10, 10⟩, .header "a"⟩, ⟨1, ⟨40, 15, 10, 10⟩, .header "b"⟩,
          ⟨2, ⟨65, 15, 10, 10⟩, .header "c"⟩]
        ⟨2, ⟨65, 15, 10, 10⟩, .header "c"⟩ false = none ∧
    GetNextCard
        [⟨0, ⟨15, 15, 10, 10⟩, .header "a"⟩, ⟨1, ⟨40, 15, 10, 10⟩, .header "b"⟩,
          ⟨2, ⟨65, 15, 10, 10⟩, .header "c"⟩]
        ⟨2, ⟨65, 15, 10, 10⟩, .header "c"⟩ true = some ⟨0, ⟨15, 15, 10, 10⟩, .header "a"⟩ := by
  obtain ⟨hnone, m, hm, hmemc, hminc⟩ :=
    (getNextPrev_card_spec
        [⟨0, ⟨15, 15, 10, 10⟩, .header "a"⟩, ⟨1, ⟨40, 15, 10, 10⟩, .header "b"⟩,
          ⟨2, ⟨65, 15, 10, 10⟩, .header "c"⟩]
        ⟨2, ⟨65, 15, 10, 10⟩, .header "c"⟩ (by decide)).2.1 (by decide)
  have hle : m.label ≤ 0 := hminc ⟨0, ⟨15, 15, 10, 10⟩, .header "a"⟩ (by decide)
  have hma : m = ⟨0, ⟨15, 15, 10, 10⟩, .header "a"⟩ := by
    simp only [List.mem_cons, List.not_mem_nil, or_false] at hmemc
    rcases hmemc with rfl | rfl | rfl
    · rfl
    · exact absurd hle (by decide)
    · exact absurd hle (by decide)
  rw [hma] at hm
  exact ⟨hnone, hm⟩

/-- Claim C5: arranging a nonempty selection horizontally clears the
selection, leaves the cards collection itself untouched (the widgets move
in place), and repositions the selected cards in ascending original
left-edge order: sizes, labels and data are kept, consecutive cards sit
exactly one padding after the right edge of the previous one, the first
arranged card starts at the minimal original left edge, and every
arranged card takes the original top of the first selected card
attaining that minimal left edge. -/
theorem harrange_spec (st : BoardState) (hne : st.selected_cards ≠ []) :
    ((HArrangeSelectedCards st).1.selected_cards = []) ∧
    ((HArrangeSelectedCards st).1.cards = st.cards) ∧
    ((HArrangeSelectedCards st).2.map (fun c => (c.label, c.data, c.rect.w, c.rect.h)) =
        (sortByLeft st.selected_cards).map (fun c => (c.label, c.data, c.rect.w, c.rect.h))) ∧
    ((sortByLeft st.selected_cards).Perm st.selected_cards) ∧
    ((sortByLeft st.selected_cards).Pairwise (fun a b => a.rect.left ≤ b.rect.left)) ∧
    List.Chain' (fun a b => b.rect.x = a.rect.right + CARD_PADDING)
      (HArrangeSelectedCards st).2 ∧
    (((HArrangeSelectedCards st).2.map (fun c => c.rect.x)).head? =
        some (pyMinInt (st.selected_cards.map (fun c => c.rect.left)))) ∧
    (∃ a, st.selected_cards.find?
          (fun c => decide (c.rect.left = pyMinInt (st.selected_cards.map
            (fun c => c.rect.left)))) = some a ∧
        a ∈ st.selected_cards ∧
        a.rect.left = pyMinInt (st.selected_cards.map (fun c => c.rect.left)) ∧
        ∀ m ∈ (HArrangeSelectedCards st).2, m.rect.y = a.rect.top) := by
  have hlen : ¬ (st.selected_cards.length < 1) := by
    cases h : st.selected_cards with
    | nil => exact absurd h hne
    | cons a l => simp
  have hH : HArrangeSelectedCards st = (UnselectAll st, HArrangeList st.selected_cards) := by
    simp [HArrangeSelectedCards, hlen]
  have hlefts : st.selected_cards.map (fun c => c.rect.left) ≠ [] := by simp [hne]
  obtain ⟨hminmem, hminle⟩ := pyMinInt_spec _ hlefts
  have hex : ∃ c ∈ st.selected_cards,
      (fun c => decide (c.rect.left = pyMinInt (st.selected_cards.map
        (fun c => c.rect.left)))) c = true := by
    rcases List.mem_map.mp hminmem with ⟨c, hc, hval⟩
    exact ⟨c, hc, by simpa using hval⟩
  obtain ⟨a, hfind⟩ : ∃ a, st.selected_cards.find?
      (fun c => decide (c.rect.left = pyMinInt (st.selected_cards.map
        (fun c => c.rect.left)))) = some a := by
    have hs := List.find?_isSome.mpr hex
    cases hfa : List.find? _ st.selected_cards with
    | none => rw [hfa] at hs; cases hs
    | some a => exact ⟨a, rfl⟩
  have hamem : a ∈ st.selected_cards := List.mem_of_find?_eq_some hfind
  have haleft : a.rect.left = pyMinInt (st.selected_cards.map (fun c => c.rect.left)) := by
    have := List.find?_some hfind
    simpa using this
  have hHL : HArrangeList st.selected_cards =
      ArrangeRow (pyMinInt (st.selected_cards.map (fun c => c.rect.left))) a.rect.top
        (sortByLeft st.selected_cards) := by
    unfold HArrangeList
    dsimp only
    rw [hfind, Option.getD_some]
  have hsortne : sortByLeft st.selected_cards ≠ [] := by
    intro h
    have := (sortByLeft_perm st.selected_cards).symm.length_eq
    rw [h] at this
    cases hcs : st.selected_cards with
    | nil => exact absurd hcs hne
    | cons x xs => rw [hcs] at this; simp at this
  refine ⟨by rw [hH]; exact unselectAll_selected st, by rw [hH]; rfl, ?_, sortByLeft_perm _,
    sortByLeft_pairwise _, ?_, ?_, a, hfind, hamem, haleft, ?_⟩
  · rw [hH]
    dsimp only
    rw [hHL]
    exact arrangeRow_core _ _ _
  · rw [hH]
    dsimp only
    rw [hHL]
    exact arrangeRow_chain _ _ _
  · rw [hH]
    dsimp only
    rw [hHL]
    cases hsl : sortByLeft st.selected_cards with
    | nil => exact absurd hsl hsortne
    | cons d ds =>
        rw [ArrangeRow, List.map_cons]
        rfl
  · intro m hm
    rw [hH] at hm
    dsimp only at hm
    rw [hHL] at hm
    exact arrangeRow_tops _ _ _ m hm

/-- Witness for claim C5 on a one-card selection. -/
theorem harrange_spec_witness :
    (HArrangeSelectedCards
        ⟨[⟨0, ⟨40, 7, 10, 5⟩, .header "a"⟩], [⟨0, ⟨40, 7, 10, 5⟩, .header "a"⟩], 1⟩).1.selected_cards
      = [] :=
  (harrange_spec
    ⟨[⟨0, ⟨40, 7, 10, 5⟩, .header "a"⟩], [⟨0, ⟨40, 7, 10, 5⟩, .header "a"⟩], 1⟩
    (by decide)).1

/-- Claim C9: selecting a card with new_sel yields that card as the whole
selection, whatever was selected before. -/
theorem selectCard_new_sel_makes_singleton (st : BoardState) (c : BCard) :
    GetSelection (SelectCard st c true) = [c] := rfl

/-- Claim C8 counterexample: CopySelected does not preserve all field
values of the duplicated cards.  Duplicating a selected Content card with
rating 2 and collapsed state yields a duplicate whose rating is back at 0
and which is not collapsed, so the duplicate data differs from the
original data. -/
theorem copySelected_drops_rating_and_collapsed :
    (let orig : BCard := ⟨0, ⟨15, 15, 250, 80⟩, .content "t" "Concept" "body" 2 true⟩
     let st : BoardState := ⟨[orig], [orig], 1⟩
     (CopySelected st).selected_cards.map (fun c => c.data) =
         [.content "t" "Concept" "body" 0 false] ∧
       orig.data = .content "t" "Concept" "body" 2 true ∧
       ¬ ((CopySelected st).selected_cards.map (fun c => c.data) = [orig.data])) := by
  decide

/-- Claim C8 as amended: CopySelected duplicates exactly the selected
cards of kind Content or Header, in selection order, each at a position
offset by the padding in both axes, copying title, kind and content for a
Content (the header text for a Header) while rating, collapsed state and
size return to their creation defaults, and assigning fresh sequential
labels starting at the current card count; the new duplicates are
appended to the cards collection and become exactly the new selection. -/
theorem copySelected_spec (st : BoardState) :
    (CopySelected st).selected_cards =
        ExpectedCopies st.scale st.cards.length st.selected_cards ∧
    (CopySelected st).cards =
        st.cards ++ ExpectedCopies st.scale st.cards.length st.selected_cards :=
  ⟨copySelected_selected_cards st, copySelected_cards st⟩

/-- Claim C10: starting from any selection without duplicates, every
selection-mutating operation of the board keeps the selection free of
duplicates (a drag-select gesture, DeleteSelected and CopySelected even
unconditionally), and selecting an already-selected card without new_sel
leaves the state unchanged. -/
theorem selection_ops_nodup :
    (∀ (st : BoardState) (c : BCard) (b : Bool), st.selected_cards.Nodup →
        ((SelectCard st c b).selected_cards).Nodup) ∧
    (∀ (st : BoardState) (c : BCard), st.selected_cards.Nodup →
        ((UnselectCard st c).selected_cards).Nodup) ∧
    (∀ st : BoardState, ((UnselectAll st).selected_cards).Nodup) ∧
    (∀ (st : BoardState) (p1 p2 : Point),
        ((DragSelectGesture st p1 p2).selected_cards).Nodup) ∧
    (∀ st : BoardState, ((DeleteSelected st).selected_cards).Nodup) ∧
    (∀ st : BoardState, ((CopySelected st).selected_cards).Nodup) ∧
    (∀ (st : BoardState) (c : BCard), c ∈ st.selected_cards →
        SelectCard st c false = st) := by
  refine ⟨selectCard_nodup, fun st c h => ?_, fun st => ?_, fun st p1 p2 => ?_, fun st => ?_,
    fun st => ?_, fun st c h => ?_⟩
  · unfold UnselectCard
    split_ifs
    · exact List.Nodup.erase c h
    · exact h
  · rw [unselectAll_selected]
    exact List.nodup_nil
  · unfold DragSelectGesture DragSelectRelease
    apply select_fold_nodup
    rw [unselectAll_selected]
    exact List.nodup_nil
  · unfold DeleteSelected
    rw [unselectAll_selected]
    exact List.nodup_nil
  · rw [copySelected_selected_cards]
    exact expectedCopies_nodup _ _ _
  · simp [SelectCard, h]

/-- Witness for claim C10: selecting on a concrete board keeps the
selection duplicate free. -/
theorem selection_ops_nodup_witness :
    ((SelectCard ⟨[⟨0, ⟨0, 0, 10, 10⟩, .header "w"⟩], [⟨0, ⟨0, 0, 10, 10⟩, .header "w"⟩], 1⟩
        ⟨0, ⟨0, 0, 10, 10⟩, .header "w"⟩ false).selected_cards).Nodup :=
  selection_ops_nodup.1
    ⟨[⟨0, ⟨0, 0, 10, 10⟩, .header "w"⟩], [⟨0, ⟨0, 0, 10, 10⟩, .header "w"⟩], 1⟩
    ⟨0, ⟨0, 0, 10, 10⟩, .header "w"⟩ false (by decide)

/-- Claim C6: NewCard without an explicit label assigns the current card
count as the label, and consequently, after creating three cards and
deleting the first, the next created card receives label 2, colliding
with the surviving card of label 2, so the board labels are no longer
distinct. -/
theorem newCard_label_is_count_and_collides :
    (∀ (st : BoardState) (args : CardCtorArgs) (pos : Point),
        ((NewCard st args pos (-1)).2).label = (st.cards.length : Int)) ∧
    (let st0 : BoardState := ⟨[], [], 1⟩
     let r1 := NewCard st0 (.content none none none) ⟨15, 15⟩ (-1)
     let r2 := NewCard r1.1 (.content none none none) ⟨300, 15⟩ (-1)
     let r3 := NewCard r2.1 (.content none none none) ⟨600, 15⟩ (-1)
     let st4 := DeleteSelected (SelectCard r3.1 r1.2 true)
     let r5 := NewCard st4 (.content none none none) ⟨15, 15⟩ (-1)
     r5.2.label = 2 ∧ (∃ c ∈ st4.cards, c ≠ r5.2 ∧ c.label = r5.2.label) ∧
       ¬ ((r5.1.cards.map (fun c => c.label)).Nodup)) := by
  refine ⟨fun st args pos => ?_, by decide⟩
  cases args <;> simp [NewCard]

end Threepy5
